import Mathlib

/-!
Verification of the day-4 / day-5 puzzle solvers.

Day 4 (`src/day4/solution.js`): a grid word-search.  The grid is the list of
lines of the input (split at the line breaks), modelled as `List (List Char)`.
`part1Solution` extracts rows, columns (lodash `zip`, i.e. a transpose), and
the two diagonal directions, and counts the regex matches of `XMAS` and
`SAMX` in every line.  `part2Solution` slides a 3x3 window over the grid and
tests it against four fixed templates.

Day 5 (`src/day5/solution.js`): ordering rules `a|b` and page lists; the
rules and the parsed page lists are modelled post-parsing as
`List (Nat × Nat)` and `List (List Nat)`.
-/

namespace Day4

/-- The forward search pattern, the literal of the regex `/XMAS/g`. -/
def xmas : List Char := ['X', 'M', 'A', 'S']

/-- The backward search pattern, the literal of the regex `/SAMX/g`. -/
def samx : List Char := ['S', 'A', 'M', 'X']

/-- Helper for `countNonOverlap`: scans the line one character at a time;
the counter records how many characters of the previous match are still to
be skipped (a JavaScript global regex resumes at `lastIndex`, the end of the
previous match). -/
def cnoAux (p : List Char) : List Char → Nat → Nat
  | [], _ => 0
  | c :: rest, 0 =>
      if p.isPrefixOf (c :: rest) then cnoAux p rest (p.length - 1) + 1
      else cnoAux p rest 0
  | _ :: rest, k + 1 => cnoAux p rest k

/-- Number of matches of `line.match(/p/g)`: left-to-right scan, and after a
match the scan resumes right after it (matches do not overlap). -/
def countNonOverlap (p l : List Char) : Nat := cnoAux p l 0

/-- Number of all (possibly overlapping) occurrences of `p` in `l`: the
number of starting positions at which `p` occurs.  This is the count the
spec describes ("possibly overlapping occurrences"). -/
def countAllOcc (p : List Char) : List Char → Nat
  | [] => 0
  | c :: rest => (if p.isPrefixOf (c :: rest) then 1 else 0) + countAllOcc p rest

/-- `[...(line.match(/XMAS/g) || []), ...(line.match(/SAMX/g) || [])].length`. -/
def lineCount (l : List Char) : Nat := countNonOverlap xmas l + countNonOverlap samx l

/-- Length of the longest row; lodash `_.zip(...rows)` produces this many
groups. -/
def maxRowLen (g : List (List Char)) : Nat := (g.map List.length).foldr max 0

/-- The lodash zip of the rows, each group joined back to a line: group `j`
collects `row[j]` for every row, where `Array.join` renders the `undefined`
entries of missing positions as empty strings, so they simply disappear:
exactly a `filterMap` over the rows. -/
def transposeGrid (g : List (List Char)) : List (List Char) :=
  (List.range (maxRowLen g)).map (fun j => g.filterMap (fun row => row[j]?))

/-- Diagonal number `i` of the first direction:
`_.zip(_.range(i+1), _.rangeRight(i+1))` is the pair list `(x, i-x)` for
`x = 0..i`; the in-bounds pairs are kept and mapped to `text[x][y]`
(out-of-range characters, impossible on a well-formed grid, would be
dropped by `join` just as in `transposeGrid`). -/
def diag1Line (g : List (List Char)) (i : Nat) : List Char :=
  (((List.range (i + 1)).map (fun x => (x, i - x))).filter
      (fun xy => decide (xy.1 < g.length) && decide (xy.2 < g.length))).filterMap
    (fun xy => (g[xy.1]?).bind (fun row => row[xy.2]?))

/-- `new Array(text.length*2-1).fill().map((e, i) => ...)` for the first
diagonal direction. -/
def diag1Lines (g : List (List Char)) : List (List Char) :=
  (List.range (2 * g.length - 1)).map (diag1Line g)

/-- Diagonal number `i` of the second direction: same pair list, mapped to
`text[text.length - x - 1][y]` (the vertically mirrored grid). -/
def diag2Line (g : List (List Char)) (i : Nat) : List Char :=
  (((List.range (i + 1)).map (fun x => (x, i - x))).filter
      (fun xy => decide (xy.1 < g.length) && decide (xy.2 < g.length))).filterMap
    (fun xy => (g[g.length - xy.1 - 1]?).bind (fun row => row[xy.2]?))

/-- `new Array(text.length*2-1).fill().map((e, i) => ...)` for the second
diagonal direction. -/
def diag2Lines (g : List (List Char)) : List (List Char) :=
  (List.range (2 * g.length - 1)).map (diag2Line g)

/-- `part1Solution` of day 4: the four line families are extracted and the
match counts of `XMAS` and `SAMX` of every line are accumulated. -/
def part1Solution (g : List (List Char)) : Nat :=
  ([g, transposeGrid g, diag1Lines g, diag2Lines g].map
    (fun grid => (grid.map lineCount).sum)).sum

/-- `glue p [w0, w1, ..., wk]` is `w0 ++ p ++ w1 ++ p ++ ... ++ p ++ wk`:
a decomposition of a line into `k` pairwise disjoint occurrences of `p`
separated by the gaps `wi`.  Used to relate the non-overlapping match count
to its mirror image. -/
def glue (p : List Char) : List (List Char) → List Char
  | [] => []
  | [w] => w
  | w :: w1 :: ws => w ++ p ++ glue p (w1 :: ws)

/-- A well-formed square grid of size `n`: `n` rows, each of length `n`. -/
def IsSquare (g : List (List Char)) (n : Nat) : Prop :=
  g.length = n ∧ ∀ row ∈ g, row.length = n

instance (g : List (List Char)) (n : Nat) : Decidable (IsSquare g n) := by
  unfold IsSquare; infer_instance

/-- The `example` literal of `src/day4/solution.js`, split at its line
breaks. -/
def exampleGrid : List (List Char) :=
  ["MMMSXXMASM".toList, "MSAMXMSMSA".toList, "AMXSXMAAMM".toList,
   "MSAMASMSMX".toList, "XMASAMXAMM".toList, "XXAMMXXAMA".toList,
   "SMSMSASXSS".toList, "SAXAMASAAA".toList, "MAMMMXMMMM".toList,
   "MXMXAXMASX".toList]

/-- Lodash `_.range(e)`: for `e >= 0` the list `[0, ..., e-1]`; for a
negative `e` the default step is `-1`, so `_.range(e)` is `[0, -1, ..., e+1]`
(`_.range(-4) = [0, -1, -2, -3]`, and in particular `_.range(-1) = [0]`). -/
def lodashRange (e : Int) : List Int :=
  if 0 ≤ e then (List.range e.toNat).map (fun k : Nat => (k : Int))
  else (List.range (-e).toNat).map (fun k : Nat => -(k : Int))

/-- JavaScript array indexing `g[i]`: `undefined` (here `none`) for a
negative or out-of-range index. -/
def jsIndex? (g : List (List Char)) (i : Int) : Option (List Char) :=
  if 0 ≤ i then g[i.toNat]? else none

/-- `row.slice(y, y + 3)` for the non-negative `y` that the loops produce. -/
def rowSlice (row : List Char) (y : Int) : List Char :=
  (row.drop y.toNat).take 3

/-- JavaScript `array.map(f)` for an `f` that can throw: the first failure
aborts the whole computation. -/
def mapOrFail (f : α → Option β) : List α → Option (List β)
  | [] => some []
  | a :: l => (f a).bind (fun b => (mapOrFail f l).map (fun bs => b :: bs))

/-- `[0, 1, 2].map(i => text[x + i].slice(y, y + 3))`: the three rows of the
3x3 window; accessing `.slice` of a missing row throws (`none`). -/
def windowRows? (g : List (List Char)) (x y : Int) : Option (List (List Char)) :=
  mapOrFail (fun i => (jsIndex? g (x + i)).map (fun row => rowSlice row y))
    ([0, 1, 2] : List Int)

/-- Character at position `(r, c)` of a window, when present. -/
def winChar (w : List (List Char)) (r c : Nat) : Option Char :=
  (w[r]?).bind (fun row => row[c]?)

/-- The corner characters `(top-left, top-right, bottom-left, bottom-right)`
of the four `permutations` regexes `M.S/.A./M.S`, `M.M/.A./S.S`,
`S.M/.A./S.M`, `S.S/.M.M` of the source. -/
def cornerTemplates : List (Char × Char × Char × Char) :=
  [('M', 'S', 'M', 'S'), ('M', 'M', 'S', 'S'), ('S', 'M', 'S', 'M'), ('S', 'S', 'M', 'M')]

/-- Test of one template regex against the window string
`w0 ++ "\n" ++ w1 ++ "\n" ++ w2`.  Each regex is 11 characters long with
literal line breaks at offsets 3 and 7, and `.` does not match a line
break, so on the 11-character string of a full 3x3 window the regex can
only match at offset 0; the match then constrains exactly the four corners
and the centre, the `.` positions accepting any grid character. -/
def matchesTemplate (w : List (List Char)) (t : Char × Char × Char × Char) : Bool :=
  winChar w 0 0 == some t.1 && winChar w 0 2 == some t.2.1 &&
  winChar w 1 1 == some 'A' &&
  winChar w 2 0 == some t.2.2.1 && winChar w 2 2 == some t.2.2.2

/-- `part2Solution` of day 4: both loops run over `_.range(text.length - 2)`
and each iteration builds the 3x3 window string and tests the four
templates; building the window throws when a row is missing, which the
model reports as `none`. -/
def part2Solution (g : List (List Char)) : Option Nat :=
  (mapOrFail (fun x =>
      (mapOrFail (fun y =>
          (windowRows? g x y).map
            (fun w => if cornerTemplates.any (matchesTemplate w) then (1 : Nat) else 0))
        (lodashRange ((g.length : Int) - 2))).map
        (fun cells => cells.sum))
    (lodashRange ((g.length : Int) - 2))).map
    (fun rows => rows.sum)

/-- Character of the grid at row `x`, column `y` (a total default-valued
read, used only at in-range positions). -/
def gridChar (g : List (List Char)) (x y : Nat) : Char :=
  (g.getD x []).getD y '.'

/-- Modelled from the words of the spec (section 4.3): the 3x3 window with
top-left corner `(x, y)` "matches" when its four diagonal corner characters
and its centre character agree with one of the four accepted templates, the
edge-midpoint positions being wildcards. -/
def specWindowMatch (g : List (List Char)) (x y : Nat) : Bool :=
  cornerTemplates.any (fun t =>
    gridChar g x y == t.1 && gridChar g x (y + 2) == t.2.1 &&
    gridChar g (x + 1) (y + 1) == 'A' &&
    gridChar g (x + 2) y == t.2.2.1 && gridChar g (x + 2) (y + 2) == t.2.2.2)

end Day4

namespace Day5

/-- The successor list of page `p`: the reduce of the parsed `a|b` rule
pairs builds an object mapping each `page1` to the list of its `page2`s in
input order; `rules[p]` is that list (an absent key and an empty list are
interchangeable under the `!rules[k] || !rules[k].includes(x)` test). -/
def succs (rules : List (Nat × Nat)) (p : Nat) : List Nat :=
  (rules.filter (fun r => r.1 == p)).map (fun r => r.2)

/-- The day-5 filter
`pages.slice(0,-1).every((page, i) => !rules[pages[i+1]] || !rules[pages[i+1]].includes(page))`:
for every index `i` of all but the last position, the rule entry of the next
page must not contain the current page. -/
def adjacentOk (rules : List (Nat × Nat)) (pages : List Nat) : Bool :=
  (List.range (pages.length - 1)).all
    (fun i => !((succs rules (pages.getD (i + 1) 0)).contains (pages.getD i 0)))

/-- `pages[Math.floor(pages.length / 2)]`. -/
def middle (pages : List Nat) : Nat := pages.getD (pages.length / 2) 0

/-- `part1Solution` of day 5 (after parsing): keep the page lists passing
the adjacency filter and sum their middle elements. -/
def part1Solution (rules : List (Nat × Nat)) (orders : List (List Nat)) : Nat :=
  ((orders.filter (fun pages => adjacentOk rules pages)).map middle).sum

/-- Stable insertion used by `sortLe`. -/
def insertLe (le : Nat → Nat → Bool) (a : Nat) : List Nat → List Nat
  | [] => [a]
  | b :: t => if le a b then a :: b :: t else b :: insertLe le a t

/-- A stable comparison sort: `sortLe le l` orders `l` so that `a` is
placed before `b` when `le a b` holds. -/
def sortLe (le : Nat → Nat → Bool) (l : List Nat) : List Nat :=
  l.foldr (insertLe le) []

/-- `pages.sort((a, b) => !rules[b] || !rules[b].includes(a) ? 1 : -1)`:
the comparator returns `-1` (placing `a` before `b`) exactly when
`rules[b]` contains `a`; modelled as a stable comparison sort with that
relation (the exact engine sort is unspecified for such a comparator,
but no claim depends on the resulting order). -/
def jsSort (rules : List (Nat × Nat)) (pages : List Nat) : List Nat :=
  sortLe (fun a b => (succs rules b).contains a) pages

/-- `part2Solution` of day 5 (after parsing): keep the page lists failing
the adjacency filter, sort each one, and sum the middle elements. -/
def part2Solution (rules : List (Nat × Nat)) (orders : List (List Nat)) : Nat :=
  ((orders.filter (fun pages => !(adjacentOk rules pages))).map
    (fun pages => middle (jsSort rules pages))).sum

end Day5

namespace Day4

theorem cnoAux_drop (p : List Char) :
    ∀ (l : List Char) (k : Nat), cnoAux p l k = cnoAux p (l.drop k) 0 := by
  intro l
  induction l with
  | nil => intro k; simp [cnoAux]
  | cons c rest ih =>
    intro k
    cases k with
    | zero => rfl
    | succ k => simpa [cnoAux] using ih k

theorem countNonOverlap_nil (p : List Char) : countNonOverlap p [] = 0 := rfl

theorem countNonOverlap_cons (p : List Char) (c : Char) (rest : List Char) :
    countNonOverlap p (c :: rest) =
      if p.isPrefixOf (c :: rest) then countNonOverlap p (rest.drop (p.length - 1)) + 1
      else countNonOverlap p rest := by
  by_cases h : p.isPrefixOf (c :: rest)
  · simp only [countNonOverlap, cnoAux, h, if_true]
    rw [cnoAux_drop p rest (p.length - 1)]
  · simp [countNonOverlap, cnoAux, h]

theorem maxRowLen_of_square :
    ∀ (g : List (List Char)) (n : Nat), (∀ r ∈ g, r.length = n) → g ≠ [] →
      maxRowLen g = n := by
  intro g
  induction g with
  | nil => intro n _ h; exact absurd rfl h
  | cons r g ih =>
    intro n hall _
    cases g with
    | nil => simp [maxRowLen, hall r (by simp)]
    | cons r2 g2 =>
      have h2 : maxRowLen (r2 :: g2) = n :=
        ih n (fun x hx => hall x (List.mem_cons_of_mem _ hx)) (by simp)
      simp only [maxRowLen, List.map_cons, List.foldr_cons] at h2 ⊢
      rw [hall r (by simp), h2, Nat.max_self]

/-- C1: on every square grid of size `N ≥ 1` the extraction of
`part1Solution` produces exactly `N` row lines, `N` column lines, and
`2N - 1` diagonal lines in each of the two diagonal directions. -/
theorem line_extractor_counts (g : List (List Char)) (n : Nat)
    (h : IsSquare g n) (hn : 1 ≤ n) :
    g.length = n ∧ (transposeGrid g).length = n ∧
    (diag1Lines g).length = 2 * n - 1 ∧ (diag2Lines g).length = 2 * n - 1 := by
  obtain ⟨h1, h2⟩ := h
  have hne : g ≠ [] := by
    intro he
    rw [he] at h1
    simp at h1
    omega
  have hm : maxRowLen g = n := maxRowLen_of_square g n h2 hne
  refine ⟨h1, ?_, ?_, ?_⟩ <;>
    simp [transposeGrid, diag1Lines, diag2Lines, hm, h1]

theorem line_extractor_counts_witness :
    IsSquare [['A', 'B'], ['C', 'D']] 2 ∧ 1 ≤ 2 ∧
      ([['A', 'B'], ['C', 'D']] : List (List Char)).length = 2 ∧
      (transposeGrid [['A', 'B'], ['C', 'D']]).length = 2 ∧
      (diag1Lines [['A', 'B'], ['C', 'D']]).length = 2 * 2 - 1 ∧
      (diag2Lines [['A', 'B'], ['C', 'D']]).length = 2 * 2 - 1 :=
  ⟨by decide, by decide,
    line_extractor_counts [['A', 'B'], ['C', 'D']] 2 (by decide) (by decide)⟩

/-- C3: on the 10x10 example grid of the source, `part1Solution` returns
exactly 18. -/
theorem part1_example_value : part1Solution exampleGrid = 18 := by decide

/-- C5: on the 10x10 example grid of the source, `part2Solution` returns
exactly 9. -/
theorem part2_example_value : part2Solution exampleGrid = some 9 := by decide

theorem isPrefixOf_iff_append (l1 l2 : List Char) :
    l1.isPrefixOf l2 = true ↔ ∃ t, l1 ++ t = l2 := by
  induction l1 generalizing l2 with
  | nil => simp [List.isPrefixOf]
  | cons a l1 ih =>
    cases l2 with
    | nil => simp [List.isPrefixOf]
    | cons b l2 =>
      simp only [List.isPrefixOf, Bool.and_eq_true, beq_iff_eq, ih,
        List.cons_append, List.cons.injEq]
      constructor
      · rintro ⟨rfl, t, rfl⟩
        exact ⟨t, rfl, rfl⟩
      · rintro ⟨t, rfl, rfl⟩
        exact ⟨rfl, t, rfl⟩

theorem cno_eq_all_of_four (a b c d : Char)
    (hb : (a == b) = false) (hc : (a == c) = false) (hd : (a == d) = false) :
    ∀ (k : Nat) (l : List Char), l.length ≤ k →
      countNonOverlap [a, b, c, d] l = countAllOcc [a, b, c, d] l := by
  intro k
  induction k with
  | zero =>
    intro l hl
    have hnil : l = [] := List.length_eq_zero.mp (Nat.le_zero.mp hl)
    subst hnil
    rfl
  | succ k ih =>
    intro l hl
    cases l with
    | nil => rfl
    | cons x rest =>
      rw [countNonOverlap_cons]
      by_cases h : ([a, b, c, d] : List Char).isPrefixOf (x :: rest) = true
      · obtain ⟨t, ht⟩ := (isPrefixOf_iff_append _ _).mp h
        have ht' : a :: b :: c :: d :: t = x :: rest := by simpa using ht
        have hx : a = x := by injection ht'
        have hrest : b :: c :: d :: t = rest := by injection ht'
        subst hx
        subst hrest
        have e1 : ([a, b, c, d] : List Char).isPrefixOf (b :: c :: d :: t) = false := by
          simp [List.isPrefixOf, hb]
        have e2 : ([a, b, c, d] : List Char).isPrefixOf (c :: d :: t) = false := by
          simp [List.isPrefixOf, hc]
        have e3 : ([a, b, c, d] : List Char).isPrefixOf (d :: t) = false := by
          simp [List.isPrefixOf, hd]
        rw [if_pos h]
        have hdrop : List.drop (([a, b, c, d] : List Char).length - 1)
            (b :: c :: d :: t) = t := rfl
        rw [hdrop]
        simp only [countAllOcc, h, e1, e2, e3, if_true, Bool.false_eq_true, if_false]
        have hk : t.length ≤ k := by
          simp at hl
          omega
        rw [ih t hk]
        omega
      · rw [if_neg h]
        simp only [countAllOcc, h, Bool.false_eq_true, if_false]
        have hk : rest.length ≤ k := by
          simp at hl
          omega
        rw [ih rest hk]
        omega

theorem countNonOverlap_xmas_eq (l : List Char) :
    countNonOverlap xmas l = countAllOcc xmas l := by
  have hx : xmas = ['X', 'M', 'A', 'S'] := rfl
  rw [hx]
  exact cno_eq_all_of_four 'X' 'M' 'A' 'S' (by decide) (by decide) (by decide)
    l.length l le_rfl

theorem countNonOverlap_samx_eq (l : List Char) :
    countNonOverlap samx l = countAllOcc samx l := by
  have hs : samx = ['S', 'A', 'M', 'X'] := rfl
  rw [hs]
  exact cno_eq_all_of_four 'S' 'A' 'M' 'X' (by decide) (by decide) (by decide)
    l.length l le_rfl

/-- C2: for every line, the counting step of `part1Solution` counts all
(possibly overlapping) occurrences of the fixed pattern `XMAS` and of its
reversal — for this pattern the non-overlapping left-to-right regex scan
finds every occurrence, because no two occurrences can overlap — and the
returned value is the sum of these counts over every extracted line. -/
theorem part1_overlap_counting (g : List (List Char)) (l : List Char) :
    lineCount l = countAllOcc xmas l + countAllOcc xmas.reverse l ∧
    part1Solution g =
      ((g ++ transposeGrid g ++ diag1Lines g ++ diag2Lines g).map
        (fun s => countAllOcc xmas s + countAllOcc xmas.reverse s)).sum := by
  have hrev : xmas.reverse = samx := by decide
  have hline : ∀ s, lineCount s = countAllOcc xmas s + countAllOcc xmas.reverse s := by
    intro s
    rw [hrev, lineCount, countNonOverlap_xmas_eq, countNonOverlap_samx_eq]
  refine ⟨hline l, ?_⟩
  have hfun : lineCount = fun s => countAllOcc xmas s + countAllOcc xmas.reverse s :=
    funext hline
  simp only [part1Solution, hfun, List.map_cons, List.map_nil, List.sum_cons,
    List.sum_nil, List.map_append, List.sum_append]
  omega

theorem glue_cons_cons (p w w1 : List Char) (ws : List (List Char)) :
    glue p (w :: w1 :: ws) = w ++ p ++ glue p (w1 :: ws) := rfl

theorem glue_cons_char (p : List Char) (c : Char) (w : List Char)
    (ws : List (List Char)) :
    glue p ((c :: w) :: ws) = c :: glue p (w :: ws) := by
  cases ws with
  | nil => rfl
  | cons w1 ws => rfl

theorem append_glue (p u w1 : List Char) (ws : List (List Char)) :
    u ++ glue p (w1 :: ws) = glue p ((u ++ w1) :: ws) := by
  cases ws with
  | nil => rfl
  | cons w2 ws2 => simp [glue_cons_cons, List.append_assoc]

theorem glue_append_single (p : List Char) :
    ∀ (xs : List (List Char)) (y : List Char), xs ≠ [] →
      glue p (xs ++ [y]) = glue p xs ++ p ++ y := by
  intro xs
  induction xs with
  | nil => intro y h; exact absurd rfl h
  | cons x xs ih =>
    intro y _
    cases xs with
    | nil => rfl
    | cons x1 xs1 =>
      have h1 := ih y (by simp)
      simp only [List.cons_append, glue_cons_cons]
      rw [show x1 :: (xs1 ++ [y]) = (x1 :: xs1) ++ [y] from rfl, h1]
      simp [List.append_assoc]

theorem glue_reverse (p : List Char) :
    ∀ ws : List (List Char),
      (glue p ws).reverse = glue p.reverse ((ws.map List.reverse).reverse) := by
  intro ws
  induction ws with
  | nil => rfl
  | cons w ws ih =>
    cases ws with
    | nil => rfl
    | cons w1 ws1 =>
      have hne : ((w1 :: ws1).map List.reverse).reverse ≠ [] := by simp
      calc (glue p (w :: w1 :: ws1)).reverse
          = (glue p (w1 :: ws1)).reverse ++ p.reverse ++ w.reverse := by
            rw [glue_cons_cons]
            simp [List.reverse_append, List.append_assoc]
        _ = glue p.reverse ((List.map List.reverse (w1 :: ws1)).reverse)
              ++ p.reverse ++ w.reverse := by rw [ih]
        _ = glue p.reverse (((List.map List.reverse (w1 :: ws1)).reverse)
              ++ [w.reverse]) := by
            rw [glue_append_single p.reverse _ _ hne]
        _ = glue p.reverse ((List.map List.reverse (w :: w1 :: ws1)).reverse) := by
            simp

theorem glue_le_count (a : Char) (p' : List Char) :
    ∀ (k : Nat) (l : List Char), l.length ≤ k →
      ∀ ws : List (List Char), glue (a :: p') ws = l →
        ws.length - 1 ≤ countNonOverlap (a :: p') l := by
  intro k
  induction k with
  | zero =>
    intro l hl ws hg
    have hnil : l = [] := List.length_eq_zero.mp (Nat.le_zero.mp hl)
    subst hnil
    match ws with
    | [] => simp
    | [w] => simp
    | w :: w1 :: ws1 =>
      rw [glue_cons_cons] at hg
      have hlen := congrArg List.length hg
      simp at hlen
  | succ k ih =>
    intro l hl ws hg
    match ws with
    | [] => simp
    | [w] => simp
    | w :: w1 :: ws1 =>
      rw [glue_cons_cons] at hg
      cases w with
      | nil =>
        simp only [List.nil_append, List.cons_append] at hg
        subst hg
        rw [countNonOverlap_cons]
        have hpre : (a :: p').isPrefixOf
            (a :: (p' ++ glue (a :: p') (w1 :: ws1))) = true :=
          (isPrefixOf_iff_append _ _).mpr ⟨glue (a :: p') (w1 :: ws1), by simp⟩
        rw [if_pos hpre]
        have hdrop : (p' ++ glue (a :: p') (w1 :: ws1)).drop ((a :: p').length - 1)
            = glue (a :: p') (w1 :: ws1) := List.drop_left p' _
        rw [hdrop]
        have hk : (glue (a :: p') (w1 :: ws1)).length ≤ k := by
          simp at hl
          omega
        have h1 := ih (glue (a :: p') (w1 :: ws1)) hk (w1 :: ws1) rfl
        simp at h1 ⊢
        omega
      | cons c w' =>
        simp only [List.cons_append] at hg
        subst hg
        rw [countNonOverlap_cons]
        by_cases hpre : (a :: p').isPrefixOf
            (c :: (w' ++ (a :: p') ++ glue (a :: p') (w1 :: ws1))) = true
        · rw [if_pos hpre]
          simp only [List.length_cons, Nat.add_sub_cancel]
          rw [List.drop_append_eq_append_drop, List.drop_append_eq_append_drop]
          have hG : p'.length - (w' ++ (a :: p')).length = 0 := by
            simp only [List.length_append, List.length_cons]
            omega
          rw [hG, List.drop_zero]
          by_cases hcase : p'.length ≤ w'.length
          · rw [Nat.sub_eq_zero_of_le hcase, List.drop_zero]
            have hk : ((w'.drop p'.length ++ (a :: p'))
                ++ glue (a :: p') (w1 :: ws1)).length ≤ k := by
              simp at hl ⊢
              omega
            have h1 := ih _ hk ((w'.drop p'.length) :: w1 :: ws1)
              (glue_cons_cons _ _ _ _)
            simp at h1 ⊢
            omega
          · rw [List.drop_eq_nil_of_le (by omega : w'.length ≤ p'.length),
              List.nil_append]
            have hk : (((a :: p').drop (p'.length - w'.length))
                ++ glue (a :: p') (w1 :: ws1)).length ≤ k := by
              simp at hl ⊢
              omega
            have h1 := ih _ hk ((((a :: p').drop (p'.length - w'.length)) ++ w1) :: ws1)
              (append_glue _ _ _ _).symm
            simp at h1 ⊢
            omega
        · rw [if_neg hpre]
          have hrw : w' ++ (a :: p') ++ glue (a :: p') (w1 :: ws1)
              = glue (a :: p') (w' :: w1 :: ws1) := (glue_cons_cons _ _ _ _).symm
          rw [hrw]
          have hk : (glue (a :: p') (w' :: w1 :: ws1)).length ≤ k := by
            rw [← hrw]
            simp at hl ⊢
            omega
          have h1 := ih _ hk (w' :: w1 :: ws1) rfl
          simp at h1 ⊢
          omega

theorem count_to_glue (a : Char) (p' : List Char) :
    ∀ (k : Nat) (l : List Char), l.length ≤ k →
      ∃ ws : List (List Char), glue (a :: p') ws = l ∧
        ws.length = countNonOverlap (a :: p') l + 1 := by
  intro k
  induction k with
  | zero =>
    intro l hl
    have hnil : l = [] := List.length_eq_zero.mp (Nat.le_zero.mp hl)
    subst hnil
    exact ⟨[[]], rfl, rfl⟩
  | succ k ih =>
    intro l hl
    cases l with
    | nil => exact ⟨[[]], rfl, rfl⟩
    | cons c rest =>
      by_cases hpre : (a :: p').isPrefixOf (c :: rest) = true
      · obtain ⟨t, ht⟩ := (isPrefixOf_iff_append _ _).mp hpre
        have ht' : a :: (p' ++ t) = c :: rest := by simpa using ht
        have hc : a = c := by injection ht'
        have hrest : p' ++ t = rest := by injection ht'
        have hk : t.length ≤ k := by
          have := congrArg List.length hrest
          simp at this hl
          omega
        obtain ⟨ws, hg, hlen⟩ := ih t hk
        obtain ⟨w0, ws0, rfl⟩ : ∃ w0 ws0, ws = w0 :: ws0 := by
          cases ws with
          | nil => simp at hlen
          | cons w0 ws0 => exact ⟨w0, ws0, rfl⟩
        refine ⟨[] :: w0 :: ws0, ?_, ?_⟩
        · rw [glue_cons_cons]
          simp only [List.nil_append]
          rw [hg]
          exact ht
        · rw [countNonOverlap_cons, if_pos hpre]
          have hdrop : rest.drop ((a :: p').length - 1) = t := by
            rw [← hrest]
            exact List.drop_left p' t
          rw [hdrop]
          simp at hlen ⊢
          omega
      · obtain ⟨ws, hg, hlen⟩ := ih rest (by simp at hl; omega)
        obtain ⟨w0, ws0, rfl⟩ : ∃ w0 ws0, ws = w0 :: ws0 := by
          cases ws with
          | nil => simp at hlen
          | cons w0 ws0 => exact ⟨w0, ws0, rfl⟩
        refine ⟨(c :: w0) :: ws0, ?_, ?_⟩
        · rw [glue_cons_char, hg]
        · rw [countNonOverlap_cons, if_neg hpre]
          simp at hlen ⊢
          omega

theorem count_empty_pattern (l : List Char) :
    countNonOverlap [] l = l.length := by
  induction l with
  | nil => rfl
  | cons c rest ih =>
    rw [countNonOverlap_cons]
    have hpre : (([] : List Char)).isPrefixOf (c :: rest) = true := rfl
    rw [if_pos hpre]
    simp [ih]

theorem count_le_reverse (a : Char) (p' : List Char) (l : List Char) :
    countNonOverlap (a :: p') l ≤ countNonOverlap (a :: p').reverse l.reverse := by
  obtain ⟨ws, hg, hlen⟩ := count_to_glue a p' l.length l le_rfl
  have hrev : glue (a :: p').reverse ((ws.map List.reverse).reverse) = l.reverse := by
    rw [← glue_reverse, hg]
  obtain ⟨b, q, hbq⟩ : ∃ b q, (a :: p').reverse = b :: q := by
    cases hrr : (a :: p').reverse with
    | nil =>
      have := congrArg List.length hrr
      simp at this
    | cons b q => exact ⟨b, q, rfl⟩
  have h1 := glue_le_count b q l.reverse.length l.reverse le_rfl
    ((ws.map List.reverse).reverse) (by rw [← hbq]; exact hrev)
  rw [← hbq] at h1
  have hlen2 : ((ws.map List.reverse).reverse).length = ws.length := by simp
  rw [hlen2] at h1
  omega

/-- C8: counting the matches of a pattern in a line with the counting step
of `part1Solution` (the left-to-right non-overlapping scan of a global
regex) gives the same number as counting the matches of the reversed
pattern in the reversed line, for every pattern and every line. -/
theorem count_reversal_symmetry (p l : List Char) :
    countNonOverlap p l = countNonOverlap p.reverse l.reverse := by
  cases p with
  | nil => simp [count_empty_pattern]
  | cons a p' =>
    apply Nat.le_antisymm
    · exact count_le_reverse a p' l
    · obtain ⟨b, q, hbq⟩ : ∃ b q, (a :: p').reverse = b :: q := by
        cases hrr : (a :: p').reverse with
        | nil =>
          have := congrArg List.length hrr
          simp at this
        | cons b q => exact ⟨b, q, rfl⟩
      have h2 := count_le_reverse b q l.reverse
      rw [← hbq, List.reverse_reverse, List.reverse_reverse] at h2
      exact h2

theorem filterMap_getElem_eq_map (j : Nat) :
    ∀ g : List (List Char), (∀ r ∈ g, j < r.length) →
      g.filterMap (fun row => row[j]?) = g.map (fun row => row.getD j 'A') := by
  intro g
  induction g with
  | nil => intro _; rfl
  | cons r g ih =>
    intro h
    have hj : j < r.length := h r (by simp)
    have hsome : r[j]? = some (r.getD j 'A') := by
      simp [List.getD_eq_getElem?_getD, List.getElem?_eq_getElem hj]
    rw [@List.filterMap_cons_some _ _ (fun row => row[j]?) r g (r.getD j 'A') hsome,
      List.map_cons, ih (fun x hx => h x (List.mem_cons_of_mem _ hx))]

theorem transposeGrid_square (g : List (List Char)) (n : Nat) (h : IsSquare g n) :
    transposeGrid g = (List.range n).map (fun j => g.map (fun row => row.getD j 'A')) := by
  obtain ⟨h1, h2⟩ := h
  have hm : maxRowLen g = n := by
    cases g with
    | nil =>
      simp at h1
      rw [← h1]
      rfl
    | cons r t => exact maxRowLen_of_square _ n h2 (by simp)
  unfold transposeGrid
  rw [hm]
  apply List.map_congr_left
  intro j hj
  exact filterMap_getElem_eq_map j g
    (fun r hr => by rw [h2 r hr]; exact List.mem_range.mp hj)

/-- C7: on every square grid, transposing the column lines back row-wise
reconstructs the original grid: the `zip`-transpose used by
`part1Solution` is self-inverse on square grids. -/
theorem transpose_round_trip (g : List (List Char)) (n : Nat) (h : IsSquare g n) :
    transposeGrid (transposeGrid g) = g := by
  have hT : IsSquare (transposeGrid g) n := by
    rw [transposeGrid_square g n h]
    constructor
    · simp
    · intro row hrow
      simp only [List.mem_map, List.mem_range] at hrow
      obtain ⟨j, hj, rfl⟩ := hrow
      simp [h.1]
  rw [transposeGrid_square _ n hT, transposeGrid_square g n h]
  apply List.ext_getElem
  · simp [h.1]
  · intro i hi1 hi2
    simp only [List.getElem_map, List.getElem_range]
    apply List.ext_getElem
    · simp [h.1, h.2 g[i] (List.getElem_mem hi2)]
    · intro j hj1 hj2
      have hjn : j < n := by
        rw [h.2 g[i] (List.getElem_mem hi2)] at hj2
        exact hj2
      simp only [List.getElem_map, List.getElem_range]
      rw [List.getD_eq_getElem?_getD, List.getElem?_map,
        List.getElem?_eq_getElem hi2]
      simp [List.getD_eq_getElem?_getD, List.getElem?_eq_getElem hj2]

theorem transpose_round_trip_witness :
    IsSquare [['a', 'b'], ['c', 'd']] 2 ∧
      transposeGrid (transposeGrid [['a', 'b'], ['c', 'd']]) = [['a', 'b'], ['c', 'd']] :=
  ⟨by decide, transpose_round_trip [['a', 'b'], ['c', 'd']] 2 (by decide)⟩

theorem mapOrFail_map_eq (f : β → Option γ) (c : α → β) (g' : α → γ) :
    ∀ l : List α, (∀ a ∈ l, f (c a) = some (g' a)) →
      mapOrFail f (l.map c) = some (l.map g') := by
  intro l
  induction l with
  | nil => intro _; rfl
  | cons a l ih =>
    intro h
    rw [List.map_cons, List.map_cons]
    show (f (c a)).bind _ = _
    rw [h a (by simp), ih (fun x hx => h x (List.mem_cons_of_mem _ hx))]
    rfl

theorem sum_indicator_eq_length_filter (p : α → Bool) :
    ∀ l : List α, (l.map (fun a => if p a then (1 : Nat) else 0)).sum
      = (l.filter p).length := by
  intro l
  induction l with
  | nil => rfl
  | cons a l ih =>
    rw [List.map_cons, List.sum_cons, List.filter_cons, ih]
    by_cases h : p a
    · simp [h, Nat.add_comm]
    · simp [h]

theorem lodashRange_ofNat (m : Nat) :
    lodashRange (m : Int) = (List.range m).map (fun k : Nat => (k : Int)) := by
  unfold lodashRange
  rw [if_pos (Int.ofNat_nonneg m)]
  simp

theorem jsIndex?_nat (g : List (List Char)) (x : Nat) (hx : x < g.length) :
    jsIndex? g (x : Int) = some (g.getD x []) := by
  unfold jsIndex?
  rw [if_pos (Int.ofNat_nonneg x)]
  simp [List.getD_eq_getElem?_getD, List.getElem?_eq_getElem hx]

theorem windowRows?_eq (g : List (List Char)) (n x y : Nat) (h : IsSquare g n)
    (hx : x + 2 < n) :
    windowRows? g (x : Int) (y : Int) =
      some [rowSlice (g.getD x []) (y : Int),
            rowSlice (g.getD (x + 1) []) (y : Int),
            rowSlice (g.getD (x + 2) []) (y : Int)] := by
  have hg1 : g.length = n := h.1
  have j0 : jsIndex? g ((x : Nat) : Int) = some (g.getD x []) :=
    jsIndex?_nat g x (by rw [hg1]; omega)
  have j1 : jsIndex? g (((x + 1 : Nat) : Nat) : Int) = some (g.getD (x + 1) []) :=
    jsIndex?_nat g (x + 1) (by rw [hg1]; omega)
  have j2 : jsIndex? g (((x + 2 : Nat) : Nat) : Int) = some (g.getD (x + 2) []) :=
    jsIndex?_nat g (x + 2) (by rw [hg1]; omega)
  have e0 : (x : Int) + 0 = ((x : Nat) : Int) := by omega
  have e1 : (x : Int) + 1 = (((x + 1 : Nat) : Nat) : Int) := by omega
  have e2 : (x : Int) + 2 = (((x + 2 : Nat) : Nat) : Int) := by omega
  simp only [windowRows?, mapOrFail, e0, e1, e2, j0, j1, j2]
  rfl

theorem row_length_of_square (g : List (List Char)) (n i : Nat) (h : IsSquare g n)
    (hi : i < n) : (g.getD i []).length = n := by
  have hib : i < g.length := by rw [h.1]; exact hi
  rw [List.getD_eq_getElem?_getD, List.getElem?_eq_getElem hib]
  exact h.2 g[i] (List.getElem_mem hib)

theorem rowSlice_cell (row : List Char) (n y c : Nat) (hyc : y + c < n)
    (hc : c < 3) (hlen : row.length = n) :
    (rowSlice row (y : Int))[c]? = some (row.getD (y + c) '.') := by
  unfold rowSlice
  rw [List.getElem?_take, if_pos hc, List.getElem?_drop]
  simp only [Int.toNat_ofNat]
  have hb : y + c < row.length := by omega
  simp [List.getD_eq_getElem?_getD, List.getElem?_eq_getElem hb]

theorem matches_window_aux (w0 w1 w2 : List Char) (a b c d e : Char)
    (h00 : w0[0]? = some a) (h02 : w0[2]? = some b) (h11 : w1[1]? = some c)
    (h20 : w2[0]? = some d) (h22 : w2[2]? = some e) :
    cornerTemplates.any (matchesTemplate [w0, w1, w2]) =
      cornerTemplates.any (fun t =>
        a == t.1 && b == t.2.1 && c == 'A' && d == t.2.2.1 && e == t.2.2.2) := by
  have e00 : winChar [w0, w1, w2] 0 0 = w0[0]? := rfl
  have e02 : winChar [w0, w1, w2] 0 2 = w0[2]? := rfl
  have e11 : winChar [w0, w1, w2] 1 1 = w1[1]? := rfl
  have e20 : winChar [w0, w1, w2] 2 0 = w2[0]? := rfl
  have e22 : winChar [w0, w1, w2] 2 2 = w2[2]? := rfl
  simp only [cornerTemplates, List.any_cons, List.any_nil, matchesTemplate,
    e00, e02, e11, e20, e22, h00, h02, h11, h20, h22]
  rfl

theorem matches_window_eq (g : List (List Char)) (n x y : Nat) (h : IsSquare g n)
    (hx : x + 2 < n) (hy : y + 2 < n) :
    cornerTemplates.any (matchesTemplate
      [rowSlice (g.getD x []) (y : Int),
       rowSlice (g.getD (x + 1) []) (y : Int),
       rowSlice (g.getD (x + 2) []) (y : Int)]) = specWindowMatch g x y := by
  have l0 : (g.getD x []).length = n := row_length_of_square g n x h (by omega)
  have l1 : (g.getD (x + 1) []).length = n := row_length_of_square g n (x + 1) h (by omega)
  have l2 : (g.getD (x + 2) []).length = n := row_length_of_square g n (x + 2) h (by omega)
  have h00 := rowSlice_cell (g.getD x []) n y 0 (by omega) (by omega) l0
  have h02 := rowSlice_cell (g.getD x []) n y 2 (by omega) (by omega) l0
  have h11 := rowSlice_cell (g.getD (x + 1) []) n y 1 (by omega) (by omega) l1
  have h20 := rowSlice_cell (g.getD (x + 2) []) n y 0 (by omega) (by omega) l2
  have h22 := rowSlice_cell (g.getD (x + 2) []) n y 2 (by omega) (by omega) l2
  simp only [Nat.add_zero] at h00 h20
  rw [matches_window_aux _ _ _ _ _ _ _ _ h00 h02 h11 h20 h22]
  rfl

/-- C4 (amended to grids with at least two rows): on every square grid of
size `N ≥ 2`, `part2Solution` returns the number of 3x3 windows, the
top-left corner ranging over all valid positions, whose content matches at
least one of the four fixed corner/centre templates, the edge midpoints
being wildcards. -/
theorem part2_window_count (g : List (List Char)) (n : Nat) (h : IsSquare g n)
    (hn : 2 ≤ n) :
    part2Solution g =
      some (((List.range (n - 2)).map (fun x =>
        ((List.range (n - 2)).filter (fun y => specWindowMatch g x y)).length)).sum) := by
  have hidx : lodashRange ((g.length : Int) - 2)
      = (List.range (n - 2)).map (fun k : Nat => (k : Int)) := by
    rw [h.1]
    have e : (n : Int) - 2 = ((n - 2 : Nat) : Int) := by omega
    rw [e, lodashRange_ofNat]
  have hinner : ∀ x ∈ List.range (n - 2),
      (mapOrFail (fun y =>
          (windowRows? g ((x : Nat) : Int) y).map
            (fun w => if cornerTemplates.any (matchesTemplate w) then (1 : Nat) else 0))
        ((List.range (n - 2)).map (fun k : Nat => (k : Int)))).map
        (fun cells => cells.sum)
      = some (((List.range (n - 2)).filter (fun y => specWindowMatch g x y)).length) := by
    intro x hxmem
    have hx : x + 2 < n := by
      have := List.mem_range.mp hxmem
      omega
    have hcell : ∀ y ∈ List.range (n - 2),
        (windowRows? g ((x : Nat) : Int) ((fun k : Nat => (k : Int)) y)).map
          (fun w => if cornerTemplates.any (matchesTemplate w) then (1 : Nat) else 0)
        = some ((fun y : Nat => if specWindowMatch g x y then (1 : Nat) else 0) y) := by
      intro y hymem
      have hy : y + 2 < n := by
        have := List.mem_range.mp hymem
        omega
      show (windowRows? g ((x : Nat) : Int) ((y : Nat) : Int)).map _ = _
      rw [windowRows?_eq g n x y h hx, Option.map_some',
        matches_window_eq g n x y h hx hy]
    rw [mapOrFail_map_eq _ (fun k : Nat => (k : Int))
      (fun y : Nat => if specWindowMatch g x y then (1 : Nat) else 0)
      (List.range (n - 2)) hcell]
    rw [Option.map_some', sum_indicator_eq_length_filter]
  unfold part2Solution
  rw [hidx]
  rw [mapOrFail_map_eq _ (fun k : Nat => (k : Int))
    (fun x : Nat => ((List.range (n - 2)).filter (fun y => specWindowMatch g x y)).length)
    (List.range (n - 2)) hinner]
  rw [Option.map_some']

theorem part2_window_count_witness :
    IsSquare [['M', 'z', 'S'], ['z', 'A', 'z'], ['M', 'z', 'S']] 3 ∧ 2 ≤ 3 ∧
      part2Solution [['M', 'z', 'S'], ['z', 'A', 'z'], ['M', 'z', 'S']] =
        some (((List.range (3 - 2)).map (fun x =>
          ((List.range (3 - 2)).filter (fun y =>
            specWindowMatch [['M', 'z', 'S'], ['z', 'A', 'z'], ['M', 'z', 'S']] x y)).length)).sum) :=
  ⟨by decide, by decide,
    part2_window_count [['M', 'z', 'S'], ['z', 'A', 'z'], ['M', 'z', 'S']] 3
      (by decide) (by decide)⟩

/-- C4 counterexample: on the square grid of size 1 the claim fails.  The
grid `[['A']]` has no valid 3x3 window, so the claimed return value is the
count 0; but the code does not return 0 (or any number): `_.range(-1)` is
`[0]`, the loop body reads the missing row `text[1]` and throws, which the
model reports as `none`. -/
theorem part2_window_count_cex :
    IsSquare [['A']] 1 ∧
      (((List.range (1 - 2)).map (fun x =>
        ((List.range (1 - 2)).filter (fun y =>
          specWindowMatch [['A']] x y)).length)).sum = 0) ∧
      part2Solution [['A']] = none ∧ part2Solution [['A']] ≠ some 0 := by
  refine ⟨by decide, by decide, by decide, by decide⟩

/-- C6: on a 1x1 grid the extraction yields exactly one row line, one
column line and one diagonal line of length 1 in each direction; but
`part2Solution` does not return 0: `_.range(-1)` is `[0]`, so the window
loop runs once, reads the missing row `text[1]` and fails (in JavaScript a
`TypeError` on `undefined.slice`), which the model reports as `none`. -/
theorem one_by_one_grid_behavior (c : Char) :
    [[c]].length = 1 ∧ transposeGrid [[c]] = [[c]] ∧
    diag1Lines [[c]] = [[c]] ∧ diag2Lines [[c]] = [[c]] ∧
    part2Solution [[c]] = none := by
  refine ⟨rfl, ?_, ?_, ?_, ?_⟩ <;> rfl

end Day4

namespace Day5

theorem adjacentOk_iff (rules : List (Nat × Nat)) (pages : List Nat) :
    adjacentOk rules pages = true ↔
      ∀ i : Nat, i + 1 < pages.length →
        ¬ pages.getD i 0 ∈ succs rules (pages.getD (i + 1) 0) := by
  unfold adjacentOk
  rw [List.all_eq_true]
  constructor
  · intro h i hi
    have hmem : i ∈ List.range (pages.length - 1) := List.mem_range.mpr (by omega)
    have h2 := h i hmem
    simpa using h2
  · intro h i hmem
    have hi := List.mem_range.mp hmem
    simpa using h i (by omega)

/-- C9: the day-5 `part1Solution` keeps exactly the page lists in which no
adjacent pair violates a rule: the filter accepts `pages` iff for every
index `i` the rule entry of `pages[i+1]` does not contain `pages[i]`.
Violations between non-adjacent positions are never checked: with the (not
transitively closed) single rule `3|1`, the list `[1, 2, 3]` places 1
(position 0) before 3 (position 2) although the rule orders 3 before 1,
yet it passes the filter and its middle element 2 is summed. -/
theorem day5_adjacent_filter (rules : List (Nat × Nat)) (orders : List (List Nat))
    (pages : List Nat) :
    (part1Solution rules orders =
      ((orders.filter (fun p => adjacentOk rules p)).map middle).sum) ∧
    (adjacentOk rules pages = true ↔
      ∀ i : Nat, i + 1 < pages.length →
        ¬ pages.getD i 0 ∈ succs rules (pages.getD (i + 1) 0)) ∧
    (adjacentOk [(3, 1)] [1, 2, 3] = true ∧
      1 ∈ succs [(3, 1)] 3 ∧
      [1, 2, 3].getD 0 0 = 1 ∧ [1, 2, 3].getD 2 0 = 3 ∧
      part1Solution [(3, 1)] [[1, 2, 3]] = 2) :=
  ⟨rfl, adjacentOk_iff rules pages,
    by decide, by decide, by decide, by decide, by decide⟩

theorem day5_adjacent_filter_witness :
    adjacentOk [(3, 1)] [1, 2, 3] = true ∧
      part1Solution [(3, 1)] [[1, 2, 3]] = 2 :=
  ⟨(day5_adjacent_filter [(3, 1)] [[1, 2, 3]] [1, 2, 3]).2.2.1,
   (day5_adjacent_filter [(3, 1)] [[1, 2, 3]] [1, 2, 3]).2.2.2.2.2.2⟩

theorem filter_partition_sum (rules : List (Nat × Nat)) :
    ∀ orders : List (List Nat),
      part1Solution rules orders + part2Solution rules orders =
        (orders.map (fun p => if adjacentOk rules p then middle p
          else middle (jsSort rules p))).sum := by
  intro orders
  induction orders with
  | nil => rfl
  | cons p orders ih =>
    have h1 : part1Solution rules (p :: orders) =
        (if adjacentOk rules p then middle p else 0) + part1Solution rules orders := by
      unfold part1Solution
      rw [List.filter_cons]
      by_cases h : adjacentOk rules p <;> simp [h]
    have h2 : part2Solution rules (p :: orders) =
        (if adjacentOk rules p then 0 else middle (jsSort rules p))
          + part2Solution rules orders := by
      unfold part2Solution
      rw [List.filter_cons]
      by_cases h : adjacentOk rules p <;> simp [h]
    rw [h1, h2, List.map_cons, List.sum_cons]
    by_cases h : adjacentOk rules p <;> simp [h] <;> omega

/-- C10: every page list satisfies exactly one of the two day-5 filters
(`part2Solution` filters with the literal negation of the test used by
`part1Solution`), so the two kept sublists partition the input, and the
middle element of every list (re-sorted, in the part-2 case) is summed by
exactly one of `part1Solution` and `part2Solution`. -/
theorem day5_partition (rules : List (Nat × Nat)) (orders : List (List Nat)) :
    ((orders.filter (fun p => adjacentOk rules p)).length
      + (orders.filter (fun p => !(adjacentOk rules p))).length = orders.length) ∧
    (∀ p : List Nat,
      (adjacentOk rules p = true ∧ (!(adjacentOk rules p)) = false) ∨
      (adjacentOk rules p = false ∧ (!(adjacentOk rules p)) = true)) ∧
    part1Solution rules orders + part2Solution rules orders =
      (orders.map (fun p => if adjacentOk rules p then middle p
        else middle (jsSort rules p))).sum := by
  refine ⟨?_, ?_, filter_partition_sum rules orders⟩
  · induction orders with
    | nil => rfl
    | cons p orders ih =>
      rw [List.filter_cons, List.filter_cons]
      by_cases h : adjacentOk rules p
      · simp only [h, Bool.not_true, if_true, Bool.false_eq_true, if_false,
          List.length_cons]
        omega
      · simp only [Bool.not_eq_true] at h
        simp only [h, Bool.not_false, Bool.false_eq_true, if_false, if_true,
          List.length_cons]
        omega
  · intro p
    by_cases h : adjacentOk rules p
    · exact Or.inl ⟨h, by simp [h]⟩
    · refine Or.inr ⟨?_, ?_⟩
      · simpa using h
      · simp [h]

end Day5
